import Mathlib

/-!
# Verification of StringZilla's serial hashing subsystem (`include/stringzilla/hash.h`)

This file gives a shallow embedding of the serial reference implementation:
`sz_bytesum_serial`, the emulated AES round `_sz_emulate_aesenc_si128_serial`,
the minimal (128-bit) and wide (512-bit) hash states with their init / stream /
fold operations, and the PRNG `sz_generate_serial`.

Conventions of the embedding:
* machine `u64` values are `Nat`s; every operation that wraps in C applies an
  explicit `% 2^64`;
* a 128-bit register (`sz_u128_vec_t`) is a pair of 64-bit lanes `lo`/`hi`,
  matching the C union's `u64s[0]`/`u64s[1]`; its byte view `u8s[i]` is
  little-endian within each lane, as on the platforms the serial code targets;
* byte strings are `List Byte` with `Byte := Fin 256`;
* the wide state's 64-byte `ins` buffer is a `List Byte` of length 64.
-/

/-- A byte, as read through `sz_u8_t const *`. -/
abbrev Byte := Fin 256

/-- The two 64-bit lanes of an `sz_u128_vec_t` (`u64s[0]` is `lo`, `u64s[1]` is `hi`). -/
structure U128 where
  lo : Nat
  hi : Nat
deriving DecidableEq, Repr

/-- Byte `i` of a 128-bit vector (`u8s[i]` of the C union, little-endian lanes). -/
def getByte (v : U128) (i : Nat) : Nat :=
  if i < 8 then (v.lo >>> (8 * i)) % 256 else (v.hi >>> (8 * (i - 8))) % 256

/-- Rebuild an `sz_u128_vec_t` from its 16 bytes (each store truncates to `u8`). -/
def u128OfBytes (f : Nat → Nat) : U128 :=
  { lo := f 0 % 256 + f 1 % 256 * 256 + f 2 % 256 * 65536 + f 3 % 256 * 16777216 +
          f 4 % 256 * 4294967296 + f 5 % 256 * 1099511627776 +
          f 6 % 256 * 281474976710656 + f 7 % 256 * 72057594037927936,
    hi := f 8 % 256 + f 9 % 256 * 256 + f 10 % 256 * 65536 + f 11 % 256 * 16777216 +
          f 12 % 256 * 4294967296 + f 13 % 256 * 1099511627776 +
          f 14 % 256 * 281474976710656 + f 15 % 256 * 72057594037927936 }

/-- The standard AES S-box table (`sbox[256]` in `_sz_emulate_aesenc_si128_serial`). -/
def sboxTable : List Nat :=
  [0x63, 0x7c, 0x77, 0x7b, 0xf2, 0x6b, 0x6f, 0xc5, 0x30, 0x01, 0x67, 0x2b, 0xfe, 0xd7, 0xab, 0x76,
   0xca, 0x82, 0xc9, 0x7d, 0xfa, 0x59, 0x47, 0xf0, 0xad, 0xd4, 0xa2, 0xaf, 0x9c, 0xa4, 0x72, 0xc0,
   0xb7, 0xfd, 0x93, 0x26, 0x36, 0x3f, 0xf7, 0xcc, 0x34, 0xa5, 0xe5, 0xf1, 0x71, 0xd8, 0x31, 0x15,
   0x04, 0xc7, 0x23, 0xc3, 0x18, 0x96, 0x05, 0x9a, 0x07, 0x12, 0x80, 0xe2, 0xeb, 0x27, 0xb2, 0x75,
   0x09, 0x83, 0x2c, 0x1a, 0x1b, 0x6e, 0x5a, 0xa0, 0x52, 0x3b, 0xd6, 0xb3, 0x29, 0xe3, 0x2f, 0x84,
   0x53, 0xd1, 0x00, 0xed, 0x20, 0xfc, 0xb1, 0x5b, 0x6a, 0xcb, 0xbe, 0x39, 0x4a, 0x4c, 0x58, 0xcf,
   0xd0, 0xef, 0xaa, 0xfb, 0x43, 0x4d, 0x33, 0x85, 0x45, 0xf9, 0x02, 0x7f, 0x50, 0x3c, 0x9f, 0xa8,
   0x51, 0xa3, 0x40, 0x8f, 0x92, 0x9d, 0x38, 0xf5, 0xbc, 0xb6, 0xda, 0x21, 0x10, 0xff, 0xf3, 0xd2,
   0xcd, 0x0c, 0x13, 0xec, 0x5f, 0x97, 0x44, 0x17, 0xc4, 0xa7, 0x7e, 0x3d, 0x64, 0x5d, 0x19, 0x73,
   0x60, 0x81, 0x4f, 0xdc, 0x22, 0x2a, 0x90, 0x88, 0x46, 0xee, 0xb8, 0x14, 0xde, 0x5e, 0x0b, 0xdb,
   0xe0, 0x32, 0x3a, 0x0a, 0x49, 0x06, 0x24, 0x5c, 0xc2, 0xd3, 0xac, 0x62, 0x91, 0x95, 0xe4, 0x79,
   0xe7, 0xc8, 0x37, 0x6d, 0x8d, 0xd5, 0x4e, 0xa9, 0x6c, 0x56, 0xf4, 0xea, 0x65, 0x7a, 0xae, 0x08,
   0xba, 0x78, 0x25, 0x2e, 0x1c, 0xa6, 0xb4, 0xc6, 0xe8, 0xdd, 0x74, 0x1f, 0x4b, 0xbd, 0x8b, 0x8a,
   0x70, 0x3e, 0xb5, 0x66, 0x48, 0x03, 0xf6, 0x0e, 0x61, 0x35, 0x57, 0xb9, 0x86, 0xc1, 0x1d, 0x9e,
   0xe1, 0xf8, 0x98, 0x11, 0x69, 0xd9, 0x8e, 0x94, 0x9b, 0x1e, 0x87, 0xe9, 0xce, 0x55, 0x28, 0xdf,
   0x8c, 0xa1, 0x89, 0x0d, 0xbf, 0xe6, 0x42, 0x68, 0x41, 0x99, 0x2d, 0x0f, 0xb0, 0x54, 0xbb, 0x16]

/-- `sbox[x]`. -/
def sbox (x : Nat) : Nat := sboxTable.getD x 0

/-- The `_sz_gf2_double` macro: `((x) << 1) ^ ((((x) >> 7) & 1) * 0x1b)`.
The truncation to `sz_u8_t` happens at the surrounding store, not here. -/
def _sz_gf2_double (x : Nat) : Nat := (x <<< 1) ^^^ (((x >>> 7) &&& 1) * 0x1b)

/-- The combined `ShiftRows`+`SubBytes` grid of `_sz_emulate_aesenc_si128_serial`.
The C loop does `state_2d[((i / 4) + 4 - (i % 4)) % 4][i % 4] = sbox[state_vec.u8s[i]]`
for `i = 0..15`; solving `((i/4) + 4 - (i%4)) % 4 = r`, `i % 4 = c` for `i` gives the
unique source index `i = 4 * ((r + c) % 4) + c`, so cell `(r, c)` holds
`sbox[u8s[4 * ((r + c) % 4) + c]]`. -/
def aesGrid (s : U128) (r c : Nat) : Nat := sbox (getByte s (4 * ((r + c) % 4) + c))

/-- Row `r` of the grid after the in-place `MixColumns` loop.  In the C code every
right-hand side reads the pre-update values (`t` caches `state_2d[i][0]`), and each
`^=` stores into `sz_u8_t`, truncating mod 256. -/
def aesMixed (s : U128) (r c : Nat) : Nat :=
  let s0 := aesGrid s r 0
  let s1 := aesGrid s r 1
  let s2 := aesGrid s r 2
  let s3 := aesGrid s r 3
  let u := s0 ^^^ s1 ^^^ s2 ^^^ s3
  match c with
  | 0 => (s0 ^^^ (u ^^^ _sz_gf2_double (s0 ^^^ s1))) % 256
  | 1 => (s1 ^^^ (u ^^^ _sz_gf2_double (s1 ^^^ s2))) % 256
  | 2 => (s2 ^^^ (u ^^^ _sz_gf2_double (s2 ^^^ s3))) % 256
  | _ => (s3 ^^^ (u ^^^ _sz_gf2_double (s3 ^^^ s0))) % 256

/-- `_sz_emulate_aesenc_si128_serial`: one emulated AES encryption round; the
result's byte `i` is `state_2d[i / 4][i % 4] ^ round_key_vec.u8s[i]`. -/
def _sz_emulate_aesenc_si128_serial (state_vec round_key_vec : U128) : U128 :=
  u128OfBytes fun i => aesMixed state_vec (i / 4) (i % 4) ^^^ getByte round_key_vec i

/-- `_sz_emulate_shuffle_epi8_serial` specialized to a fixed order table:
`result.u8s[i] = state_vec.u8s[order[i]]`. -/
def _sz_emulate_shuffle_epi8_serial (state_vec : U128) (order : List Nat) : U128 :=
  u128OfBytes fun i => getByte state_vec (order.getD i 0)

/-- One 16-byte lane of `_sz_hash_u8x16x4_shuffle` (the table repeats it four times). -/
def shuffleOrder : List Nat := [4, 11, 9, 6, 8, 13, 15, 5, 14, 3, 1, 12, 0, 7, 10, 2]

/-- The sixteen 64-bit π constants of `_sz_hash_pi_constants`. -/
def piTable : List Nat :=
  [0x243F6A8885A308D3, 0x13198A2E03707344, 0xA4093822299F31D0, 0x082EFA98EC4E6C89,
   0x452821E638D01377, 0xBE5466CF34E90C6C, 0xC0AC29B7C97C50DD, 0x3F84D5B5B5470917,
   0x9216D5D98979FB1B, 0xD1310BA698DFB5AC, 0x2FFD72DBD01ADFB7, 0xB8E1AFED6A267E96,
   0xBA7C9045F12C7F99, 0x24A19947B3916CF7, 0x0801F2E2858EFC16, 0x636920D871574E69]

/-- `_sz_hash_pi_constants()[i]`. -/
def piConst (i : Nat) : Nat := piTable.getD i 0

/-! ## Specification-side AES round

Independent definitions following the spec's words: "`MixColumns(SubBytes(ShiftRows(S))) ⊕ K`
in standard AES byte ordering, where SubBytes uses the standard AES S-box and MixColumns uses
GF(2^8) doubling `x·2 = (x<<1) ^ ((x>>7)·0x1b)`".  The 128-bit state is the standard AES
4×4 state in column-major byte order: byte `i` sits at row `i % 4`, column `i / 4`. -/

/-- GF(2^8) doubling as the spec words it, reduced to a byte. -/
def xtime (x : Nat) : Nat := ((x <<< 1) ^^^ ((x >>> 7) * 0x1b)) % 256

/-- GF(2^8) multiplication by 3: `x·3 = x·2 ⊕ x`. -/
def xtime3 (x : Nat) : Nat := xtime x ^^^ x

/-- The 16 bytes of a 128-bit block, in standard AES byte order. -/
def bytesOf (s : U128) : List Nat :=
  [getByte s 0, getByte s 1, getByte s 2, getByte s 3,
   getByte s 4, getByte s 5, getByte s 6, getByte s 7,
   getByte s 8, getByte s 9, getByte s 10, getByte s 11,
   getByte s 12, getByte s 13, getByte s 14, getByte s 15]

/-- Standard AES ShiftRows on the flat column-major byte order: the byte at
row `r`, column `c` of the output comes from row `r`, column `(c + r) mod 4`;
flattened, output index `4c + r` reads input index `4·((c + r) mod 4) + r`. -/
def shiftRows (b : List Nat) : List Nat :=
  [b.getD 0 0, b.getD 5 0, b.getD 10 0, b.getD 15 0,
   b.getD 4 0, b.getD 9 0, b.getD 14 0, b.getD 3 0,
   b.getD 8 0, b.getD 13 0, b.getD 2 0, b.getD 7 0,
   b.getD 12 0, b.getD 1 0, b.getD 6 0, b.getD 11 0]

/-- Standard AES SubBytes: the S-box applied to every byte. -/
def subBytes (b : List Nat) : List Nat := b.map sbox

/-- Standard AES MixColumns on one column `(a, b, c, d)`:
multiplication by the circulant matrix `(2 3 1 1; 1 2 3 1; 1 1 2 3; 3 1 1 2)` over GF(2^8). -/
def mixColumn (a b c d : Nat) : List Nat :=
  [xtime a ^^^ xtime3 b ^^^ c ^^^ d,
   a ^^^ xtime b ^^^ xtime3 c ^^^ d,
   a ^^^ b ^^^ xtime c ^^^ xtime3 d,
   xtime3 a ^^^ b ^^^ c ^^^ xtime d]

/-- Standard AES MixColumns on the flat state. -/
def mixColumns (b : List Nat) : List Nat :=
  mixColumn (b.getD 0 0) (b.getD 1 0) (b.getD 2 0) (b.getD 3 0) ++
  mixColumn (b.getD 4 0) (b.getD 5 0) (b.getD 6 0) (b.getD 7 0) ++
  mixColumn (b.getD 8 0) (b.getD 9 0) (b.getD 10 0) (b.getD 11 0) ++
  mixColumn (b.getD 12 0) (b.getD 13 0) (b.getD 14 0) (b.getD 15 0)

/-- The spec's AES round: `MixColumns(SubBytes(ShiftRows(S))) ⊕ K`. -/
def aesRoundSpec (s k : U128) : U128 :=
  u128OfBytes fun i => (mixColumns (subBytes (shiftRows (bytesOf s)))).getD i 0 ^^^ getByte k i

/-! ## Hash state data model and serial operations -/

/-- Lane-wise 64-bit addition (`u64s[0] += ...`, `u64s[1] += ...`, wrapping). -/
def addLanes (a b : U128) : U128 :=
  { lo := (a.lo + b.lo) % 2 ^ 64, hi := (a.hi + b.hi) % 2 ^ 64 }

/-- `_sz_hash_minimal_t`: three 128-bit blocks. -/
structure SzHashMinimal where
  aes : U128
  sum : U128
  key : U128
deriving DecidableEq, Repr

/-- `sz_hash_state_t`: four 128-bit AES lanes, four 128-bit sum lanes, the 64-byte
input buffer, the 128-bit key and the cumulative length.  Lane `i` of `aes`/`sum`
is the `sz_u128_vec_t` at `u64s[2i], u64s[2i+1]`; `ins` is the byte view `u8s[0..64)`. -/
structure SzHashState where
  aes0 : U128
  aes1 : U128
  aes2 : U128
  aes3 : U128
  sum0 : U128
  sum1 : U128
  sum2 : U128
  sum3 : U128
  ins : List Byte
  key : U128
  ins_length : Nat
deriving DecidableEq, Repr

/-- The `j`-th 128-bit block of the input buffer (`ins_vecs[j]`). -/
def insVec (ins : List Byte) (j : Nat) : U128 :=
  u128OfBytes fun i => (ins.getD (16 * j + i) 0).val

/-- `_sz_hash_minimal_init_serial`. -/
def _sz_hash_minimal_init_serial (seed : Nat) : SzHashMinimal :=
  { key := { lo := seed, hi := seed },
    aes := { lo := seed ^^^ piConst 0, hi := seed ^^^ piConst 1 },
    sum := { lo := seed ^^^ piConst 8, hi := seed ^^^ piConst 9 } }

/-- `_sz_hash_minimal_update_serial`: `aes := AESENC(aes, block)`;
`sum := shuffle(sum) + block` with lane-wise wrapping 64-bit addition. -/
def _sz_hash_minimal_update_serial (state : SzHashMinimal) (block : U128) : SzHashMinimal :=
  { state with
    aes := _sz_emulate_aesenc_si128_serial state.aes block,
    sum := addLanes (_sz_emulate_shuffle_epi8_serial state.sum shuffleOrder) block }

/-- `_sz_hash_minimal_finalize_serial`. -/
def _sz_hash_minimal_finalize_serial (state : SzHashMinimal) (length : Nat) : Nat :=
  let key_with_length : U128 := { state.key with lo := (state.key.lo + length) % 2 ^ 64 }
  let mixed_registers := _sz_emulate_aesenc_si128_serial state.sum state.aes
  let mixed_within_register := _sz_emulate_aesenc_si128_serial
    (_sz_emulate_aesenc_si128_serial mixed_registers key_with_length) mixed_registers
  mixed_within_register.lo

/-- `_sz_hash_shift_in_register_serial`: a right shift of the 128-bit register by
`shift_bytes` bytes, emulated with two 64-bit word shifts and a cross-word carry. -/
def _sz_hash_shift_in_register_serial (vec : U128) (shift_bytes : Nat) : U128 :=
  if 8 ≤ shift_bytes then
    { lo := vec.hi >>> ((shift_bytes - 8) * 8), hi := 0 }
  else if shift_bytes ≠ 0 then
    { lo := (vec.lo >>> (shift_bytes * 8)) ||| ((vec.hi <<< ((8 - shift_bytes) * 8)) % 2 ^ 64),
      hi := vec.hi >>> (shift_bytes * 8) }
  else vec

/-- `sz_hash_state_init_serial`: key `(seed, seed)`, AES lanes `seed ^ pi[0..8)`,
sum lanes `seed ^ pi[8..16)`, zeroed input buffer, zero length. -/
def sz_hash_state_init_serial (seed : Nat) : SzHashState :=
  { aes0 := { lo := seed ^^^ piConst 0, hi := seed ^^^ piConst 1 },
    aes1 := { lo := seed ^^^ piConst 2, hi := seed ^^^ piConst 3 },
    aes2 := { lo := seed ^^^ piConst 4, hi := seed ^^^ piConst 5 },
    aes3 := { lo := seed ^^^ piConst 6, hi := seed ^^^ piConst 7 },
    sum0 := { lo := seed ^^^ piConst 8, hi := seed ^^^ piConst 9 },
    sum1 := { lo := seed ^^^ piConst 10, hi := seed ^^^ piConst 11 },
    sum2 := { lo := seed ^^^ piConst 12, hi := seed ^^^ piConst 13 },
    sum3 := { lo := seed ^^^ piConst 14, hi := seed ^^^ piConst 15 },
    ins := List.replicate 64 0,
    key := { lo := seed, hi := seed },
    ins_length := 0 }

/-- `_sz_hash_state_update_serial`: the four-lane absorb of the buffered 64 bytes. -/
def _sz_hash_state_update_serial (state : SzHashState) : SzHashState :=
  { state with
    aes0 := _sz_emulate_aesenc_si128_serial state.aes0 (insVec state.ins 0),
    sum0 := addLanes (_sz_emulate_shuffle_epi8_serial state.sum0 shuffleOrder) (insVec state.ins 0),
    aes1 := _sz_emulate_aesenc_si128_serial state.aes1 (insVec state.ins 1),
    sum1 := addLanes (_sz_emulate_shuffle_epi8_serial state.sum1 shuffleOrder) (insVec state.ins 1),
    aes2 := _sz_emulate_aesenc_si128_serial state.aes2 (insVec state.ins 2),
    sum2 := addLanes (_sz_emulate_shuffle_epi8_serial state.sum2 shuffleOrder) (insVec state.ins 2),
    aes3 := _sz_emulate_aesenc_si128_serial state.aes3 (insVec state.ins 3),
    sum3 := addLanes (_sz_emulate_shuffle_epi8_serial state.sum3 shuffleOrder) (insVec state.ins 3) }

/-- `_sz_hash_state_finalize_serial`: the four-lane AES-round reduction tree. -/
def _sz_hash_state_finalize_serial (state : SzHashState) : Nat :=
  let key_with_length : U128 := { state.key with lo := (state.key.lo + state.ins_length) % 2 ^ 64 }
  let mixed_registers0 := _sz_emulate_aesenc_si128_serial state.sum0 state.aes0
  let mixed_registers1 := _sz_emulate_aesenc_si128_serial state.sum1 state.aes1
  let mixed_registers2 := _sz_emulate_aesenc_si128_serial state.sum2 state.aes2
  let mixed_registers3 := _sz_emulate_aesenc_si128_serial state.sum3 state.aes3
  let mixed_registers01 := _sz_emulate_aesenc_si128_serial mixed_registers0 mixed_registers1
  let mixed_registers23 := _sz_emulate_aesenc_si128_serial mixed_registers2 mixed_registers3
  let mixed_registers := _sz_emulate_aesenc_si128_serial mixed_registers01 mixed_registers23
  let mixed_within_register := _sz_emulate_aesenc_si128_serial
    (_sz_emulate_aesenc_si128_serial mixed_registers key_with_length) mixed_registers
  mixed_within_register.lo

/-- One iteration step plus the remaining iterations of the `while (length)` loop of
`sz_hash_state_stream_serial`, with an explicit structural fuel (the loop consumes at
least one input byte per iteration, so `text.length` iterations always suffice). -/
def streamGo (fuel : Nat) (state : SzHashState) (text : List Byte) : SzHashState :=
  match fuel with
  | 0 => state
  | fuel + 1 =>
    match text with
    | [] => state
    | _ :: _ =>
      let progress_in_block := state.ins_length % 64
      let to_copy := min text.length (64 - progress_in_block)
      let will_fill_block := progress_in_block + to_copy = 64
      let state1 : SzHashState :=
        { state with
          ins_length := state.ins_length + to_copy,
          ins := state.ins.take progress_in_block ++ text.take to_copy ++
                 state.ins.drop (progress_in_block + to_copy) }
      let state2 : SzHashState :=
        if will_fill_block then
          { _sz_hash_state_update_serial state1 with ins := List.replicate 64 0 }
        else state1
      streamGo fuel state2 (text.drop to_copy)

/-- `sz_hash_state_stream_serial`. -/
def sz_hash_state_stream_serial (state : SzHashState) (text : List Byte) : SzHashState :=
  streamGo text.length state text

/-- `sz_hash_state_fold_serial`: wide finalization when 64 or more bytes were
absorbed, otherwise fold to a minimal state and take the short-input path. -/
def sz_hash_state_fold_serial (state : SzHashState) : Nat :=
  let length := state.ins_length
  if 64 ≤ length then _sz_hash_state_finalize_serial state
  else
    let minimal_state : SzHashMinimal :=
      { key := state.key, aes := state.aes0, sum := state.sum0 }
    if length ≤ 16 then
      _sz_hash_minimal_finalize_serial
        (_sz_hash_minimal_update_serial minimal_state (insVec state.ins 0)) length
    else if length ≤ 32 then
      _sz_hash_minimal_finalize_serial
        (_sz_hash_minimal_update_serial
          (_sz_hash_minimal_update_serial minimal_state (insVec state.ins 0))
          (insVec state.ins 1)) length
    else if length ≤ 48 then
      _sz_hash_minimal_finalize_serial
        (_sz_hash_minimal_update_serial
          (_sz_hash_minimal_update_serial
            (_sz_hash_minimal_update_serial minimal_state (insVec state.ins 0))
            (insVec state.ins 1))
          (insVec state.ins 2)) length
    else
      _sz_hash_minimal_finalize_serial
        (_sz_hash_minimal_update_serial
          (_sz_hash_minimal_update_serial
            (_sz_hash_minimal_update_serial
              (_sz_hash_minimal_update_serial minimal_state (insVec state.ins 0))
              (insVec state.ins 1))
            (insVec state.ins 2))
          (insVec state.ins 3)) length

/-- A 128-bit load of `text` bytes at `offset` (`u64s` loads of 8 bytes each,
little-endian); reads past the end of the list yield 0, which only the
zero-padded `length <= 16` branch of `sz_hash_serial` relies on. -/
def loadU128 (text : List Byte) (offset : Nat) : U128 :=
  u128OfBytes fun i => (text.getD (offset + i) 0).val

/-- The main block loop of the `length > 64` branch of `sz_hash_serial`:
while `ins_length + 64 <= length`, load 64 bytes at offset `ins_length` into
`ins`, absorb them, and advance `ins_length` by 64.  Structural fuel again
bounds the iteration count. -/
def hashLongGo (fuel : Nat) (text : List Byte) (state : SzHashState) : SzHashState :=
  match fuel with
  | 0 => state
  | fuel + 1 =>
    if state.ins_length + 64 ≤ text.length then
      hashLongGo fuel text
        { _sz_hash_state_update_serial
            { state with ins := (text.drop state.ins_length).take 64 } with
          ins_length := state.ins_length + 64 }
    else state

/-- `sz_hash_serial`: dispatch over the input length. -/
def sz_hash_serial (text : List Byte) (seed : Nat) : Nat :=
  let length := text.length
  if length ≤ 16 then
    let state := _sz_hash_minimal_init_serial seed
    let data_vec := loadU128 text 0
    _sz_hash_minimal_finalize_serial (_sz_hash_minimal_update_serial state data_vec) length
  else if length ≤ 32 then
    let state := _sz_hash_minimal_init_serial seed
    let data0_vec := loadU128 text 0
    let data1_vec := _sz_hash_shift_in_register_serial (loadU128 text (length - 16)) (32 - length)
    _sz_hash_minimal_finalize_serial
      (_sz_hash_minimal_update_serial (_sz_hash_minimal_update_serial state data0_vec) data1_vec)
      length
  else if length ≤ 48 then
    let state := _sz_hash_minimal_init_serial seed
    let data0_vec := loadU128 text 0
    let data1_vec := loadU128 text 16
    let data2_vec := _sz_hash_shift_in_register_serial (loadU128 text (length - 16)) (48 - length)
    _sz_hash_minimal_finalize_serial
      (_sz_hash_minimal_update_serial
        (_sz_hash_minimal_update_serial (_sz_hash_minimal_update_serial state data0_vec) data1_vec)
        data2_vec)
      length
  else if length ≤ 64 then
    let state := _sz_hash_minimal_init_serial seed
    let data0_vec := loadU128 text 0
    let data1_vec := loadU128 text 16
    let data2_vec := loadU128 text 32
    let data3_vec := _sz_hash_shift_in_register_serial (loadU128 text (length - 16)) (64 - length)
    _sz_hash_minimal_finalize_serial
      (_sz_hash_minimal_update_serial
        (_sz_hash_minimal_update_serial
          (_sz_hash_minimal_update_serial
            (_sz_hash_minimal_update_serial state data0_vec) data1_vec)
          data2_vec)
        data3_vec)
      length
  else
    let state := hashLongGo length text (sz_hash_state_init_serial seed)
    let state :=
      if state.ins_length < length then
        let rem := text.drop state.ins_length
        { _sz_hash_state_update_serial
            { state with ins := rem ++ List.replicate (64 - rem.length) 0 } with
          ins_length := length }
      else state
    _sz_hash_state_finalize_serial state

/-- `sz_bytesum_serial`: a running `u64` accumulator over the bytes. -/
def sz_bytesum_serial (text : List Byte) : Nat :=
  text.foldl (fun bytesum b => (bytesum + b.val) % 2 ^ 64) 0

/-- `sz_hash_state_equal`: the C code compares `aes.u64s[0]..u64s[3]`,
`sum.u64s[0]..u64s[3]` and the two key words — although `aes` and `sum` are
512-bit registers with `u64s[0..7]`, only their first 256 bits (lanes 0 and 1
of the `U128` view) are read; `aes.u64s[4..7]`, `sum.u64s[4..7]`, `ins` and
`ins_length` are not. -/
def sz_hash_state_equal (lhs rhs : SzHashState) : Bool :=
  let same_aes :=
    lhs.aes0.lo == rhs.aes0.lo && lhs.aes0.hi == rhs.aes0.hi &&
    lhs.aes1.lo == rhs.aes1.lo && lhs.aes1.hi == rhs.aes1.hi
  let same_sum :=
    lhs.sum0.lo == rhs.sum0.lo && lhs.sum0.hi == rhs.sum0.hi &&
    lhs.sum1.lo == rhs.sum1.lo && lhs.sum1.hi == rhs.sum1.hi
  let same_key := lhs.key.lo == rhs.key.lo && lhs.key.hi == rhs.key.hi
  same_aes && same_sum && same_key

/-- One block of `sz_generate_serial` plus the remaining iterations, with structural
fuel (each iteration emits at least one byte).  Block `lane_index` encrypts
`(nonce + lane_index, nonce + lane_index)` under the key `nonce ^ pi` where `pi`
is the `(lane_index % 4)`-th 128-bit slice of the π table. -/
def generateGo (nonce : Nat) (fuel lane_index length : Nat) : List Nat :=
  match fuel with
  | 0 => []
  | fuel + 1 =>
    if length = 0 then []
    else
      let input_vec : U128 :=
        { lo := (nonce + lane_index) % 2 ^ 64, hi := (nonce + lane_index) % 2 ^ 64 }
      let key_vec : U128 :=
        { lo := nonce ^^^ piConst (2 * (lane_index % 4)),
          hi := nonce ^^^ piConst (2 * (lane_index % 4) + 1) }
      let generated_vec := _sz_emulate_aesenc_si128_serial input_vec key_vec
      (List.range (min 16 length)).map (getByte generated_vec) ++
        generateGo nonce fuel (lane_index + 1) (length - min 16 length)

/-- `sz_generate_serial`, as the list of bytes written to the output buffer. -/
def sz_generate_serial (length : Nat) (nonce : Nat) : List Nat :=
  generateGo nonce length 0 length

/-! ## XOR and GF(2^8) helper lemmas -/

set_option maxRecDepth 8000

theorem xor_mod_two_pow_256 (a b : Nat) : (a ^^^ b) % 256 = a % 256 ^^^ b % 256 := by
  have h : (256 : Nat) = 2 ^ 8 := by norm_num
  rw [h]
  apply Nat.eq_of_testBit_eq
  intro i
  simp only [Nat.testBit_mod_two_pow, Nat.testBit_xor]
  by_cases hi : i < 8 <;> simp [hi]

theorem xor_lt_256 {a b : Nat} (ha : a < 256) (hb : b < 256) : a ^^^ b < 256 := by
  have h : (256 : Nat) = 2 ^ 8 := by norm_num
  rw [h] at ha hb ⊢
  exact Nat.xor_lt_two_pow ha hb

theorem shiftLeft_xor_distrib (a b i : Nat) : (a ^^^ b) <<< i = (a <<< i) ^^^ (b <<< i) := by
  apply Nat.eq_of_testBit_eq
  intro j
  simp only [Nat.testBit_shiftLeft, Nat.testBit_xor]
  by_cases hj : i ≤ j <;> simp [hj]

theorem shiftRight_xor_distrib (a b i : Nat) : (a ^^^ b) >>> i = (a >>> i) ^^^ (b >>> i) := by
  apply Nat.eq_of_testBit_eq
  intro j
  simp [Nat.testBit_shiftRight, Nat.testBit_xor]

theorem shiftRight7_lt_two {a : Nat} (ha : a < 256) : a >>> 7 < 2 := by
  rw [Nat.shiftRight_eq_div_pow]
  omega

theorem small_mul_xor {a b : Nat} (ha : a < 2) (hb : b < 2) :
    (a ^^^ b) * 27 = a * 27 ^^^ b * 27 := by
  interval_cases a <;> interval_cases b <;> decide

theorem xor_left_comm_nat (a b c : Nat) : a ^^^ (b ^^^ c) = b ^^^ (a ^^^ c) := by
  rw [← Nat.xor_assoc, Nat.xor_comm a b, Nat.xor_assoc]

/-- `xtime` is GF(2)-linear on bytes. -/
theorem xtime_xor {a b : Nat} (ha : a < 256) (hb : b < 256) :
    xtime (a ^^^ b) = xtime a ^^^ xtime b := by
  unfold xtime
  rw [shiftLeft_xor_distrib, shiftRight_xor_distrib,
    small_mul_xor (shiftRight7_lt_two ha) (shiftRight7_lt_two hb)]
  simp only [xor_mod_two_pow_256]
  simp only [Nat.xor_assoc, xor_left_comm_nat, Nat.xor_comm]

/-- The `_sz_gf2_double` macro agrees with the spec's doubling once the
surrounding `u8` store truncates it. -/
theorem gf2_double_mod {z : Nat} (hz : z < 256) : _sz_gf2_double z % 256 = xtime z := by
  unfold _sz_gf2_double xtime
  rw [Nat.and_one_is_mod, Nat.mod_eq_of_lt (shiftRight7_lt_two hz)]

theorem sbox_lt (x : Nat) : sbox x < 256 := by
  rcases Nat.lt_or_ge x 256 with h | h
  · exact (by decide : ∀ y < 256, sbox y < 256) x h
  · unfold sbox
    rw [List.getD_eq_default]
    · decide
    · have : sboxTable.length = 256 := by decide
      omega

/-! The four byte-level MixColumns identities: the in-place `^= u ^ double(..)` form of
the C code equals the `(2 3 1 1)` circulant form of the standard definition. -/

theorem mixByte0 {s0 s1 s2 s3 : Nat} (h0 : s0 < 256) (h1 : s1 < 256) (h2 : s2 < 256)
    (h3 : s3 < 256) :
    (s0 ^^^ ((s0 ^^^ s1 ^^^ s2 ^^^ s3) ^^^ _sz_gf2_double (s0 ^^^ s1))) % 256 =
      xtime s0 ^^^ xtime3 s1 ^^^ s2 ^^^ s3 := by
  have hu : s0 ^^^ s1 ^^^ s2 ^^^ s3 < 256 := xor_lt_256 (xor_lt_256 (xor_lt_256 h0 h1) h2) h3
  rw [xor_mod_two_pow_256, xor_mod_two_pow_256, gf2_double_mod (xor_lt_256 h0 h1),
    Nat.mod_eq_of_lt h0, Nat.mod_eq_of_lt hu, xtime_xor h0 h1, xtime3]
  simp only [Nat.xor_assoc, xor_left_comm_nat, Nat.xor_comm, Nat.xor_cancel_left,
    Nat.xor_self, Nat.xor_zero, Nat.zero_xor]

theorem mixByte1 {s0 s1 s2 s3 : Nat} (h0 : s0 < 256) (h1 : s1 < 256) (h2 : s2 < 256)
    (h3 : s3 < 256) :
    (s1 ^^^ ((s0 ^^^ s1 ^^^ s2 ^^^ s3) ^^^ _sz_gf2_double (s1 ^^^ s2))) % 256 =
      s0 ^^^ xtime s1 ^^^ xtime3 s2 ^^^ s3 := by
  have hu : s0 ^^^ s1 ^^^ s2 ^^^ s3 < 256 := xor_lt_256 (xor_lt_256 (xor_lt_256 h0 h1) h2) h3
  rw [xor_mod_two_pow_256, xor_mod_two_pow_256, gf2_double_mod (xor_lt_256 h1 h2),
    Nat.mod_eq_of_lt h1, Nat.mod_eq_of_lt hu, xtime_xor h1 h2, xtime3]
  simp only [Nat.xor_assoc, xor_left_comm_nat, Nat.xor_comm, Nat.xor_cancel_left,
    Nat.xor_self, Nat.xor_zero, Nat.zero_xor]

theorem mixByte2 {s0 s1 s2 s3 : Nat} (h0 : s0 < 256) (h1 : s1 < 256) (h2 : s2 < 256)
    (h3 : s3 < 256) :
    (s2 ^^^ ((s0 ^^^ s1 ^^^ s2 ^^^ s3) ^^^ _sz_gf2_double (s2 ^^^ s3))) % 256 =
      s0 ^^^ s1 ^^^ xtime s2 ^^^ xtime3 s3 := by
  have hu : s0 ^^^ s1 ^^^ s2 ^^^ s3 < 256 := xor_lt_256 (xor_lt_256 (xor_lt_256 h0 h1) h2) h3
  rw [xor_mod_two_pow_256, xor_mod_two_pow_256, gf2_double_mod (xor_lt_256 h2 h3),
    Nat.mod_eq_of_lt h2, Nat.mod_eq_of_lt hu, xtime_xor h2 h3, xtime3]
  simp only [Nat.xor_assoc, xor_left_comm_nat, Nat.xor_comm, Nat.xor_cancel_left,
    Nat.xor_self, Nat.xor_zero, Nat.zero_xor]

theorem mixByte3 {s0 s1 s2 s3 : Nat} (h0 : s0 < 256) (h1 : s1 < 256) (h2 : s2 < 256)
    (h3 : s3 < 256) :
    (s3 ^^^ ((s0 ^^^ s1 ^^^ s2 ^^^ s3) ^^^ _sz_gf2_double (s3 ^^^ s0))) % 256 =
      xtime3 s0 ^^^ s1 ^^^ s2 ^^^ xtime s3 := by
  have hu : s0 ^^^ s1 ^^^ s2 ^^^ s3 < 256 := xor_lt_256 (xor_lt_256 (xor_lt_256 h0 h1) h2) h3
  rw [xor_mod_two_pow_256, xor_mod_two_pow_256, gf2_double_mod (xor_lt_256 h3 h0),
    Nat.mod_eq_of_lt h3, Nat.mod_eq_of_lt hu, xtime_xor h3 h0, xtime3]
  simp only [Nat.xor_assoc, xor_left_comm_nat, Nat.xor_comm, Nat.xor_cancel_left,
    Nat.xor_self, Nat.xor_zero, Nat.zero_xor]

theorem u128OfBytes_congr {f g : Nat → Nat} (h : ∀ i, i < 16 → f i = g i) :
    u128OfBytes f = u128OfBytes g := by
  unfold u128OfBytes
  rw [h 0 (by omega), h 1 (by omega), h 2 (by omega), h 3 (by omega), h 4 (by omega),
    h 5 (by omega), h 6 (by omega), h 7 (by omega), h 8 (by omega), h 9 (by omega),
    h 10 (by omega), h 11 (by omega), h 12 (by omega), h 13 (by omega), h 14 (by omega),
    h 15 (by omega)]

set_option maxHeartbeats 3200000 in
/-- **C2.** The serial AES round primitive is the standard single AES encryption
round: for every 128-bit state `S` and round key `K`,
`_sz_emulate_aesenc_si128_serial S K` equals `MixColumns(SubBytes(ShiftRows(S))) ⊕ K`
in standard AES byte ordering, with the standard S-box and the GF(2^8) doubling
`x*2 = (x<<1) ^ ((x>>7)*0x1b)`. -/
theorem aesenc_serial_is_standard_aes_round (S K : U128) :
    _sz_emulate_aesenc_si128_serial S K = aesRoundSpec S K := by
  unfold _sz_emulate_aesenc_si128_serial aesRoundSpec
  apply u128OfBytes_congr
  intro i hi
  interval_cases i <;>
    simp only [aesMixed, aesGrid, mixColumns, mixColumn, subBytes, shiftRows, bytesOf,
      List.map_cons, List.map_nil, List.getD_cons_zero, List.getD_cons_succ,
      List.cons_append, List.nil_append] <;>
    norm_num <;>
    first
    | exact mixByte0 (sbox_lt _) (sbox_lt _) (sbox_lt _) (sbox_lt _)
    | exact mixByte1 (sbox_lt _) (sbox_lt _) (sbox_lt _) (sbox_lt _)
    | exact mixByte2 (sbox_lt _) (sbox_lt _) (sbox_lt _) (sbox_lt _)
    | exact mixByte3 (sbox_lt _) (sbox_lt _) (sbox_lt _) (sbox_lt _)

/-! ## C3: minimal-state finalization formula -/

/-- **C3.** Minimal-state finalization follows the spec formula exactly: for every
minimal state and every length, the result is the low 64 bits of
`AES_round(AES_round(m, k'), m)`, where `k'` is the key with `length` added
(wrapping mod 2^64) into its low lane only, and `m = AES_round(sum, aes)`. -/
theorem minimal_finalize_serial_formula (state : SzHashMinimal) (length : Nat) :
    _sz_hash_minimal_finalize_serial state length =
      (_sz_emulate_aesenc_si128_serial
        (_sz_emulate_aesenc_si128_serial
          (_sz_emulate_aesenc_si128_serial state.sum state.aes)
          { lo := (state.key.lo + length) % 2 ^ 64, hi := state.key.hi })
        (_sz_emulate_aesenc_si128_serial state.sum state.aes)).lo := rfl

/-! ## C6: byte checksum -/

theorem byteListSum_le (b : List Byte) : (b.map Fin.val).sum ≤ 255 * b.length := by
  induction b with
  | nil => simp
  | cons x xs ih =>
    simp only [List.map_cons, List.sum_cons, List.length_cons]
    have : x.val ≤ 255 := Nat.le_of_lt_succ x.isLt
    omega

theorem bytesum_foldl_exact (b : List Byte) (acc : Nat)
    (h : acc + (b.map Fin.val).sum < 2 ^ 64) :
    b.foldl (fun bytesum x => (bytesum + x.val) % 2 ^ 64) acc = acc + (b.map Fin.val).sum := by
  induction b generalizing acc with
  | nil => simp
  | cons x xs ih =>
    simp only [List.foldl_cons, List.map_cons, List.sum_cons] at h ⊢
    rw [Nat.mod_eq_of_lt (by omega), ih (acc + x.val) (by omega)]
    omega

/-- **C6.** Checksum correctness: for every byte string shorter than 2^56 bytes,
`sz_bytesum_serial` equals the exact mathematical sum of the byte values (the
64-bit accumulator never wraps), and `sz_bytesum_serial "hi" = 209`. -/
theorem bytesum_serial_exact :
    (∀ b : List Byte, b.length < 2 ^ 56 → sz_bytesum_serial b = (b.map Fin.val).sum) ∧
    sz_bytesum_serial [104, 105] = 209 := by
  constructor
  · intro b hb
    have hsum := byteListSum_le b
    have h := bytesum_foldl_exact b 0 (by omega)
    simpa [sz_bytesum_serial] using h
  · decide

/-- Witness for C6 at the concrete input `"hi"`: its length bound holds and the
general theorem evaluates to the pinned sum 209. -/
theorem bytesum_serial_exact_witness :
    ([(104 : Byte), 105].length < 2 ^ 56) ∧
      sz_bytesum_serial [104, 105] = ([(104 : Byte), 105].map Fin.val).sum :=
  ⟨by decide, bytesum_serial_exact.1 [104, 105] (by decide)⟩

/-! ## C5 and C10: the PRNG -/

theorem generateGo_length (nonce : Nat) :
    ∀ fuel lane_index length, length ≤ fuel →
      (generateGo nonce fuel lane_index length).length = length := by
  intro fuel
  induction fuel with
  | zero =>
    intro lane_index length h
    interval_cases length
    rfl
  | succ fuel ih =>
    intro lane_index length h
    rw [generateGo]
    by_cases h0 : length = 0
    · simp [h0]
    · simp only [h0, if_false]
      rw [List.length_append, List.length_map, List.length_range,
        ih (lane_index + 1) (length - min 16 length) (by omega)]
      omega

theorem generateGo_getD (nonce : Nat) :
    ∀ fuel lane_index length j, length ≤ fuel → j < length →
      (generateGo nonce fuel lane_index length).getD j 0 =
        getByte
          (_sz_emulate_aesenc_si128_serial
            { lo := (nonce + (lane_index + j / 16)) % 2 ^ 64,
              hi := (nonce + (lane_index + j / 16)) % 2 ^ 64 }
            { lo := nonce ^^^ piConst (2 * ((lane_index + j / 16) % 4)),
              hi := nonce ^^^ piConst (2 * ((lane_index + j / 16) % 4) + 1) })
          (j % 16) := by
  intro fuel
  induction fuel with
  | zero => omega
  | succ fuel ih =>
    intro lane_index length j hlen hj
    rw [generateGo]
    simp only [Nat.ne_of_gt (by omega : 0 < length), if_false]
    by_cases hj16 : j < min 16 length
    · rw [List.getD_append _ _ _ _ (by simp [hj16])]
      have hjlt : j < 16 := by omega
      rw [List.getD_eq_getElem?_getD, List.getElem?_map, List.getElem?_range hj16]
      simp [Nat.div_eq_of_lt hjlt, Nat.mod_eq_of_lt hjlt]
    · have h16 : min 16 length = 16 := by omega
      have hj' : 16 ≤ j := by omega
      rw [List.getD_append_right _ _ _ _ (by simp [h16]; omega)]
      simp only [List.length_map, List.length_range, h16]
      rw [ih (lane_index + 1) (length - 16) (j - 16) (by omega) (by omega)]
      have hdiv : lane_index + 1 + (j - 16) / 16 = lane_index + j / 16 := by omega
      have hmod : (j - 16) % 16 = j % 16 := by omega
      rw [hdiv, hmod]

/-- **C5.** PRNG output formula: for every output length `L`, nonce, and position
`j < L`, the output byte at `j` is byte `j % 16` of `AES_round(I, K)` where, for
block index `i = j / 16`, `I` has both 64-bit lanes equal to `nonce + i` (wrapping
mod 2^64) and `K = (nonce ^ pi[2*(i%4)], nonce ^ pi[2*(i%4)+1])`. -/
theorem generate_serial_byte_formula (length nonce j : Nat) (hj : j < length) :
    (sz_generate_serial length nonce).getD j 0 =
      getByte
        (_sz_emulate_aesenc_si128_serial
          { lo := (nonce + j / 16) % 2 ^ 64, hi := (nonce + j / 16) % 2 ^ 64 }
          { lo := nonce ^^^ piConst (2 * (j / 16 % 4)),
            hi := nonce ^^^ piConst (2 * (j / 16 % 4) + 1) })
        (j % 16) := by
  have h := generateGo_getD nonce length 0 length j (Nat.le_refl _) hj
  simpa using h

/-- Witness for C5 at `L = 20`, `nonce = 7`, `j = 17` (inside the truncated final
block): the hypothesis holds and the formula evaluates. -/
theorem generate_serial_byte_formula_witness :
    (17 < 20) ∧
      (sz_generate_serial 20 7).getD 17 0 =
        getByte
          (_sz_emulate_aesenc_si128_serial
            { lo := (7 + 17 / 16) % 2 ^ 64, hi := (7 + 17 / 16) % 2 ^ 64 }
            { lo := 7 ^^^ piConst (2 * (17 / 16 % 4)),
              hi := 7 ^^^ piConst (2 * (17 / 16 % 4) + 1) })
          (17 % 16) :=
  ⟨by decide, generate_serial_byte_formula 20 7 17 (by decide)⟩

/-- **C10.** Generate writes exactly its stated length: the written output has
length `L` (no byte at index ≥ `L` is produced), and for `L = 0` nothing at all
is written. -/
theorem generate_serial_writes_exact_length (length nonce : Nat) :
    (sz_generate_serial length nonce).length = length ∧ sz_generate_serial 0 nonce = [] :=
  ⟨generateGo_length nonce length 0 length (Nat.le_refl _), rfl⟩

/-! ## Characterization of streamed states

`stateAfter seed data` is the canonical wide state reached from
`sz_hash_state_init_serial seed` after absorbing `data`: every completed 64-byte
block of `data` has been absorbed in order, the remainder sits zero-padded in the
input buffer, and `ins_length` counts all of `data`. -/

attribute [ext] U128 SzHashState

/-- The complete 64-byte blocks of `data`, in order (fueled; `data.length`
iterations always suffice). -/
def toBlocksGo (fuel : Nat) (data : List Byte) : List (List Byte) :=
  match fuel with
  | 0 => []
  | fuel + 1 => if 64 ≤ data.length then data.take 64 :: toBlocksGo fuel (data.drop 64) else []

/-- The complete 64-byte blocks of `data`, in order. -/
def toBlocks (data : List Byte) : List (List Byte) := toBlocksGo data.length data

/-- The partial trailing block of `data` (at most 63 bytes). -/
def remOf (data : List Byte) : List Byte := data.drop (64 * (data.length / 64))

/-- Absorbing one staged 64-byte block: place it in the buffer and run the
four-lane update. -/
def absorbStep (state : SzHashState) (block : List Byte) : SzHashState :=
  _sz_hash_state_update_serial { state with ins := block }

/-- The canonical state after streaming `data` from a fresh `seed` state. -/
def stateAfter (seed : Nat) (data : List Byte) : SzHashState :=
  { (toBlocks data).foldl absorbStep (sz_hash_state_init_serial seed) with
    ins := remOf data ++ List.replicate (64 - (remOf data).length) 0,
    ins_length := data.length }

theorem toBlocksGo_congr :
    ∀ fuel1 fuel2 (data : List Byte), data.length ≤ fuel1 → data.length ≤ fuel2 →
      toBlocksGo fuel1 data = toBlocksGo fuel2 data := by
  intro fuel1
  induction fuel1 with
  | zero =>
    intro fuel2 data h1 h2
    cases fuel2 with
    | zero => rfl
    | succ fuel2 =>
      rw [toBlocksGo, toBlocksGo, if_neg (by omega)]
  | succ fuel1 ih =>
    intro fuel2 data h1 h2
    cases fuel2 with
    | zero => rw [toBlocksGo, toBlocksGo, if_neg (by omega)]
    | succ fuel2 =>
      rw [toBlocksGo, toBlocksGo]
      by_cases h : 64 ≤ data.length
      · rw [if_pos h, if_pos h, ih fuel2 (data.drop 64) (by simp; omega) (by simp; omega)]
      · rw [if_neg h, if_neg h]

theorem toBlocks_unfold (data : List Byte) :
    toBlocks data =
      if 64 ≤ data.length then data.take 64 :: toBlocks (data.drop 64) else [] := by
  unfold toBlocks
  rw [toBlocksGo_congr data.length (data.length + 1) data (Nat.le_refl _) (by omega),
    toBlocksGo]
  by_cases h : 64 ≤ data.length
  · rw [if_pos h, if_pos h,
      toBlocksGo_congr data.length (data.drop 64).length (data.drop 64) (by simp) (Nat.le_refl _)]
  · rw [if_neg h, if_neg h]

theorem toBlocks_small {data : List Byte} (h : data.length < 64) : toBlocks data = [] := by
  rw [toBlocks_unfold, if_neg (by omega)]

theorem remOf_length (data : List Byte) : (remOf data).length = data.length % 64 := by
  simp only [remOf, List.length_drop]
  omega

theorem remOf_small {data : List Byte} (h : data.length < 64) : remOf data = data := by
  unfold remOf
  rw [Nat.div_eq_of_lt h, Nat.mul_zero, List.drop_zero]

theorem remOf_append_small {d c : List Byte} (h : d.length % 64 + c.length < 64) :
    remOf (d ++ c) = remOf d ++ c := by
  unfold remOf
  rw [List.length_append]
  have hdiv : 64 * ((d.length + c.length) / 64) = 64 * (d.length / 64) := by omega
  rw [hdiv, List.drop_append_of_le_length (by omega)]

theorem remOf_mod_zero {data : List Byte} (h : data.length % 64 = 0) : remOf data = [] := by
  unfold remOf
  exact List.drop_eq_nil_of_le (by omega)

theorem remOf_drop64 {d : List Byte} (h : 64 ≤ d.length) : remOf (d.drop 64) = remOf d := by
  unfold remOf
  rw [List.drop_drop, List.length_drop]
  have : 64 + 64 * ((d.length - 64) / 64) = 64 * (d.length / 64) := by omega
  rw [this]

theorem toBlocks_append_small :
    ∀ fuel (d c : List Byte), d.length ≤ fuel → d.length % 64 + c.length < 64 →
      toBlocks (d ++ c) = toBlocks d := by
  intro fuel
  induction fuel with
  | zero =>
    intro d c h1 h2
    have hd : d = [] := List.eq_nil_of_length_eq_zero (by omega)
    subst hd
    simp only [List.nil_append]
    rw [toBlocks_small (by simpa using h2), toBlocks_small (by simp)]
  | succ fuel ih =>
    intro d c h1 h2
    by_cases h : 64 ≤ d.length
    · rw [toBlocks_unfold (d ++ c), toBlocks_unfold d, if_pos (by simp; omega), if_pos h,
        List.take_append_of_le_length h, List.drop_append_of_le_length h,
        ih (d.drop 64) c (by simp; omega) (by simp; omega)]
    · rw [toBlocks_small (by simp; omega), toBlocks_small (by omega)]

theorem toBlocks_append_fill :
    ∀ fuel (d t : List Byte), d.length ≤ fuel → d.length % 64 + t.length = 64 →
      toBlocks (d ++ t) = toBlocks d ++ [remOf d ++ t] := by
  intro fuel
  induction fuel with
  | zero =>
    intro d t h1 h2
    have hd : d = [] := List.eq_nil_of_length_eq_zero (by omega)
    subst hd
    have ht : t.length = 64 := by simpa using h2
    simp only [List.nil_append]
    rw [toBlocks_unfold t, if_pos (by omega), List.take_of_length_le (by omega),
      toBlocks_small (by simp; omega), toBlocks_small (by omega)]
    rw [remOf_small (by simp)]
    simp
  | succ fuel ih =>
    intro d t h1 h2
    by_cases h : 64 ≤ d.length
    · rw [toBlocks_unfold (d ++ t), toBlocks_unfold d, if_pos (by simp; omega), if_pos h,
        List.take_append_of_le_length h, List.drop_append_of_le_length h,
        ih (d.drop 64) t (by simp; omega) (by simp; omega), remOf_drop64 h]
      simp
    · have hd : d.length < 64 := by omega
      rw [toBlocks_small hd, remOf_small hd]
      rw [toBlocks_unfold (d ++ t), if_pos (by simp; omega),
        List.take_of_length_le (by simp; omega),
        toBlocks_small (by simp; omega)]
      simp

theorem stateAfter_ins_length (seed : Nat) (data : List Byte) :
    (stateAfter seed data).ins_length = data.length := rfl

theorem stateAfter_ins (seed : Nat) (data : List Byte) :
    (stateAfter seed data).ins = remOf data ++ List.replicate (64 - (remOf data).length) 0 := rfl

theorem stateAfter_nil (seed : Nat) : stateAfter seed [] = sz_hash_state_init_serial seed := rfl

theorem streamGo_nil (fuel : Nat) (state : SzHashState) : streamGo fuel state [] = state := by
  cases fuel <;> rfl

/-- A streaming step that does not complete a 64-byte block extends the buffered
remainder and the length counter. -/
theorem stream_step_no_fill (seed : Nat) (d t : List Byte)
    (h : d.length % 64 + t.length < 64) :
    ({ stateAfter seed d with
       ins_length := d.length + t.length,
       ins := (stateAfter seed d).ins.take (d.length % 64) ++ t ++
              (stateAfter seed d).ins.drop (d.length % 64 + t.length) } : SzHashState) =
      stateAfter seed (d ++ t) := by
  have hb : toBlocks (d ++ t) = toBlocks d :=
    toBlocks_append_small d.length d t (Nat.le_refl _) h
  have hr : remOf (d ++ t) = remOf d ++ t := remOf_append_small h
  have hrl : (remOf d).length = d.length % 64 := remOf_length d
  have hins : (stateAfter seed d).ins.take (d.length % 64) ++ t ++
      (stateAfter seed d).ins.drop (d.length % 64 + t.length) =
        remOf (d ++ t) ++ List.replicate (64 - (remOf (d ++ t)).length) 0 := by
    rw [stateAfter_ins, ← hrl, List.take_left, List.drop_append, List.drop_replicate, hr,
      List.append_assoc, List.length_append]
    have : 64 - (remOf d).length - t.length = 64 - ((remOf d).length + t.length) := by omega
    rw [this, List.append_assoc]
  rw [hins]
  ext : 1 <;> simp [stateAfter, hb]

/-- A streaming step that completes the 64-byte block absorbs it and clears the
buffer. -/
theorem stream_step_fill (seed : Nat) (d t : List Byte) (n : Nat) (hn : t.length = n)
    (h : d.length % 64 + n = 64) :
    ({ _sz_hash_state_update_serial
         { stateAfter seed d with
           ins_length := d.length + n,
           ins := (stateAfter seed d).ins.take (d.length % 64) ++ t ++
                  (stateAfter seed d).ins.drop (d.length % 64 + n) } with
       ins := List.replicate 64 0 } : SzHashState) =
      stateAfter seed (d ++ t) := by
  subst hn
  have hb : toBlocks (d ++ t) = toBlocks d ++ [remOf d ++ t] :=
    toBlocks_append_fill d.length d t (Nat.le_refl _) h
  have hrl : (remOf d).length = d.length % 64 := remOf_length d
  have hmod : (d ++ t).length % 64 = 0 := by simp; omega
  have hr : remOf (d ++ t) = [] := remOf_mod_zero hmod
  have hins : (stateAfter seed d).ins.take (d.length % 64) ++ t ++
      (stateAfter seed d).ins.drop (d.length % 64 + t.length) = remOf d ++ t := by
    rw [stateAfter_ins, ← hrl, List.take_left, List.drop_append, List.drop_replicate]
    have : 64 - (remOf d).length - t.length = 0 := by omega
    rw [this]
    simp
  rw [hins]
  ext : 1 <;>
    simp [stateAfter, hb, hr, List.foldl_append, absorbStep, _sz_hash_state_update_serial]

/-- Master lemma: streaming any chunk from the canonical state after `d` yields
the canonical state after `d ++ c`. -/
theorem streamGo_stateAfter (seed : Nat) :
    ∀ fuel (d c : List Byte), c.length ≤ fuel →
      streamGo fuel (stateAfter seed d) c = stateAfter seed (d ++ c) := by
  intro fuel
  induction fuel with
  | zero =>
    intro d c h
    have hc : c = [] := List.eq_nil_of_length_eq_zero (by omega)
    subst hc
    rw [streamGo_nil]
    simp
  | succ fuel ih =>
    intro d c h
    cases c with
    | nil =>
      rw [streamGo_nil]
      simp
    | cons x rest =>
      simp only [streamGo, stateAfter_ins_length]
      by_cases hfill :
          d.length % 64 + min (x :: rest).length (64 - d.length % 64) = 64
      · rw [if_pos hfill]
        have htake : ((x :: rest).take (min (x :: rest).length (64 - d.length % 64))).length =
            min (x :: rest).length (64 - d.length % 64) := by
          rw [List.length_take]
          omega
        rw [stream_step_fill seed d _ _ htake hfill,
          ih (d ++ (x :: rest).take (min (x :: rest).length (64 - d.length % 64)))
            ((x :: rest).drop (min (x :: rest).length (64 - d.length % 64)))
            (by
              rw [List.length_drop]
              have hp : d.length % 64 < 64 := Nat.mod_lt _ (by omega)
              simp only [List.length_cons] at h ⊢
              omega),
          List.append_assoc, List.take_append_drop]
      · rw [if_neg hfill]
        have hmin : min (x :: rest).length (64 - d.length % 64) = (x :: rest).length := by
          have hp : d.length % 64 < 64 := Nat.mod_lt _ (by omega)
          omega
        rw [hmin, List.take_length, List.drop_length, streamGo_nil,
          stream_step_no_fill seed d (x :: rest) (by omega)]

/-- `sz_hash_state_stream_serial` in terms of the canonical state. -/
theorem stream_serial_stateAfter (seed : Nat) (d c : List Byte) :
    sz_hash_state_stream_serial (stateAfter seed d) c = stateAfter seed (d ++ c) :=
  streamGo_stateAfter seed c.length d c (Nat.le_refl _)

/-- Streaming a list of chunks from a fresh state reaches exactly the canonical
state of their concatenation. -/
theorem foldl_stream_stateAfter (seed : Nat) (cs : List (List Byte)) :
    ∀ d, cs.foldl sz_hash_state_stream_serial (stateAfter seed d) =
      stateAfter seed (d ++ cs.flatten) := by
  induction cs with
  | nil => intro d; simp
  | cons c cs ih =>
    intro d
    rw [List.foldl_cons, stream_serial_stateAfter, ih (d ++ c), List.flatten_cons,
      List.append_assoc]

theorem foldl_stream_from_init (seed : Nat) (cs : List (List Byte)) :
    cs.foldl sz_hash_state_stream_serial (sz_hash_state_init_serial seed) =
      stateAfter seed cs.flatten := by
  rw [← stateAfter_nil seed, foldl_stream_stateAfter]
  simp

/-! ## C7, C8, C9: streaming-state properties -/

theorem getD_replicate_zero (n k : Nat) : (List.replicate n (0 : Byte)).getD k 0 = 0 := by
  rw [List.getD_eq_getElem?_getD, List.getElem?_replicate]
  split <;> rfl

/-- The Boolean state comparison is equivalent to equality of the registers the
C code actually reads: the first two 128-bit lanes of `aes` and `sum`
(`u64s[0..3]` of each 512-bit register) and the key. -/
theorem hash_state_equal_iff (a b : SzHashState) :
    sz_hash_state_equal a b = true ↔
      a.aes0 = b.aes0 ∧ a.aes1 = b.aes1 ∧
      a.sum0 = b.sum0 ∧ a.sum1 = b.sum1 ∧
      a.key = b.key := by
  simp only [sz_hash_state_equal, Bool.and_eq_true, beq_iff_eq, U128.ext_iff]
  tauto

/-- **C9.** Zero-length streaming is the identity: streaming an empty chunk
leaves every field of the state (aes, sum, ins, key, ins_length) unchanged,
and no input byte is consumed. -/
theorem stream_serial_empty_chunk_id (state : SzHashState) :
    sz_hash_state_stream_serial state [] = state := rfl

/-- **C8.** Input-buffer zeroing invariant: any state reached from
`sz_hash_state_init_serial` by a finite sequence of `sz_hash_state_stream_serial`
calls has every `ins` byte at an index in `[ins_length % 64, 64)` equal to zero,
and `ins_length` equals the total number of bytes streamed. -/
theorem stream_serial_ins_invariant (seed : Nat) (chunks : List (List Byte)) :
    (∀ i,
      (chunks.foldl sz_hash_state_stream_serial (sz_hash_state_init_serial seed)).ins_length %
          64 ≤ i →
      i < 64 →
      (chunks.foldl sz_hash_state_stream_serial (sz_hash_state_init_serial seed)).ins.getD i 0 =
        0) ∧
    (chunks.foldl sz_hash_state_stream_serial (sz_hash_state_init_serial seed)).ins_length =
      chunks.flatten.length := by
  rw [foldl_stream_from_init]
  refine ⟨?_, rfl⟩
  intro i h1 h2
  rw [stateAfter_ins_length] at h1
  rw [stateAfter_ins,
    List.getD_append_right _ _ _ _ (by rw [remOf_length]; omega),
    getD_replicate_zero]

/-- Witness for C8 at `seed = 5`, one streamed chunk of three bytes, index 3. -/
theorem stream_serial_ins_invariant_witness :
    (([[1, 2, 3]].foldl sz_hash_state_stream_serial
        (sz_hash_state_init_serial 5)).ins_length % 64 ≤ 3 ∧ 3 < 64 ∧
      ([[1, 2, 3]].foldl sz_hash_state_stream_serial
        (sz_hash_state_init_serial 5)).ins.getD 3 0 = 0) ∧
    ([[1, 2, 3]].foldl sz_hash_state_stream_serial
        (sz_hash_state_init_serial 5)).ins_length = [[(1 : Byte), 2, 3]].flatten.length :=
  ⟨⟨by decide, by decide,
    (stream_serial_ins_invariant 5 [[1, 2, 3]]).1 3 (by decide) (by decide)⟩,
    (stream_serial_ins_invariant 5 [[1, 2, 3]]).2⟩

/-- Counterexample to C7 as stated: two states that differ in `aes.u64s[4..5]`
(the third 128-bit lane of the aes accumulator) still satisfy
`sz_hash_state_equal`, because the C comparison reads only `aes.u64s[0..3]` and
`sum.u64s[0..3]` of the 512-bit accumulators — so "true iff the states agree on
all 512 bits of aes and all 512 bits of sum" fails at this concrete pair. -/
theorem hash_state_equal_claim_counterexample :
    ¬ (sz_hash_state_equal (sz_hash_state_init_serial 0)
          { sz_hash_state_init_serial 0 with aes2 := { lo := 0, hi := 0 } } = true ↔
        ((sz_hash_state_init_serial 0).aes0 =
            ({ sz_hash_state_init_serial 0 with aes2 := { lo := 0, hi := 0 } } :
              SzHashState).aes0 ∧
         (sz_hash_state_init_serial 0).aes1 =
            ({ sz_hash_state_init_serial 0 with aes2 := { lo := 0, hi := 0 } } :
              SzHashState).aes1 ∧
         (sz_hash_state_init_serial 0).aes2 =
            ({ sz_hash_state_init_serial 0 with aes2 := { lo := 0, hi := 0 } } :
              SzHashState).aes2 ∧
         (sz_hash_state_init_serial 0).aes3 =
            ({ sz_hash_state_init_serial 0 with aes2 := { lo := 0, hi := 0 } } :
              SzHashState).aes3 ∧
         (sz_hash_state_init_serial 0).sum0 =
            ({ sz_hash_state_init_serial 0 with aes2 := { lo := 0, hi := 0 } } :
              SzHashState).sum0 ∧
         (sz_hash_state_init_serial 0).sum1 =
            ({ sz_hash_state_init_serial 0 with aes2 := { lo := 0, hi := 0 } } :
              SzHashState).sum1 ∧
         (sz_hash_state_init_serial 0).sum2 =
            ({ sz_hash_state_init_serial 0 with aes2 := { lo := 0, hi := 0 } } :
              SzHashState).sum2 ∧
         (sz_hash_state_init_serial 0).sum3 =
            ({ sz_hash_state_init_serial 0 with aes2 := { lo := 0, hi := 0 } } :
              SzHashState).sum3 ∧
         (sz_hash_state_init_serial 0).key =
            ({ sz_hash_state_init_serial 0 with aes2 := { lo := 0, hi := 0 } } :
              SzHashState).key)) := by
  decide

/-- **C7** (amended). State-equality semantics: `sz_hash_state_equal` is true
exactly when the two states agree on the first 256 bits (`u64s[0..3]`, i.e. the
first two 128-bit lanes) of the aes accumulator, the first 256 bits of the sum
accumulator, and all 128 bits of the key — the upper 256 bits of each
accumulator, the ins buffer and ins_length are ignored; consequently two states
with the same seed that have streamed the same bytes totalling a multiple of 64
— in arbitrary chunkings — followed by arbitrary pending tails of fewer than 64
bytes compare equal. -/
theorem hash_state_equal_semantics :
    (∀ a b : SzHashState,
      sz_hash_state_equal a b = true ↔
        a.aes0 = b.aes0 ∧ a.aes1 = b.aes1 ∧
        a.sum0 = b.sum0 ∧ a.sum1 = b.sum1 ∧
        a.key = b.key) ∧
    (∀ (seed : Nat) (cs1 cs2 : List (List Byte)) (t1 t2 : List Byte),
      cs1.flatten = cs2.flatten → cs1.flatten.length % 64 = 0 →
      t1.length < 64 → t2.length < 64 →
      sz_hash_state_equal
        (sz_hash_state_stream_serial
          (cs1.foldl sz_hash_state_stream_serial (sz_hash_state_init_serial seed)) t1)
        (sz_hash_state_stream_serial
          (cs2.foldl sz_hash_state_stream_serial (sz_hash_state_init_serial seed)) t2) =
        true) := by
  refine ⟨hash_state_equal_iff, ?_⟩
  intro seed cs1 cs2 t1 t2 hflat hmod ht1 ht2
  rw [foldl_stream_from_init, foldl_stream_from_init, ← hflat,
    stream_serial_stateAfter, stream_serial_stateAfter]
  have hb1 : toBlocks (cs1.flatten ++ t1) = toBlocks cs1.flatten :=
    toBlocks_append_small cs1.flatten.length cs1.flatten t1 (Nat.le_refl _) (by omega)
  have hb2 : toBlocks (cs1.flatten ++ t2) = toBlocks cs1.flatten :=
    toBlocks_append_small cs1.flatten.length cs1.flatten t2 (Nat.le_refl _) (by omega)
  rw [hash_state_equal_iff]
  simp [stateAfter, hb1, hb2]

/-- Witness for C7: empty completed stream (`seed 0`), tails `[7]` and `[]`. -/
theorem hash_state_equal_semantics_witness :
    sz_hash_state_equal
      (sz_hash_state_stream_serial
        ([[]].foldl sz_hash_state_stream_serial (sz_hash_state_init_serial 0)) [7])
      (sz_hash_state_stream_serial
        (([] : List (List Byte)).foldl sz_hash_state_stream_serial
          (sz_hash_state_init_serial 0)) []) = true :=
  hash_state_equal_semantics.2 0 [[]] [] [7] [] rfl rfl (by decide) (by decide)

/-! ## C4: fold-to-minimal characterization -/

/-- **C4.** Fold-to-minimal rule: when `ins_length < 64`, the fold builds a
minimal state from lane 0 of `aes`, lane 0 of `sum` and the unchanged key,
applies `max 1 ⌈ins_length/16⌉` minimal updates (at least one, even at length 0)
with the successive 16-byte blocks of the input buffer, and finalizes with
`ins_length`; when `ins_length ≥ 64` it applies the wide four-lane AES-tree
finalization instead. -/
theorem fold_serial_characterization (s : SzHashState) :
    (s.ins_length < 64 →
      sz_hash_state_fold_serial s =
        _sz_hash_minimal_finalize_serial
          ((List.range (max 1 ((s.ins_length + 15) / 16))).foldl
            (fun m j => _sz_hash_minimal_update_serial m (insVec s.ins j))
            { aes := s.aes0, sum := s.sum0, key := s.key })
          s.ins_length) ∧
    (64 ≤ s.ins_length →
      sz_hash_state_fold_serial s = _sz_hash_state_finalize_serial s) := by
  constructor
  · intro h
    unfold sz_hash_state_fold_serial
    rw [if_neg (by omega)]
    by_cases h16 : s.ins_length ≤ 16
    · rw [if_pos h16, show max 1 ((s.ins_length + 15) / 16) = 1 by omega]
      rfl
    · by_cases h32 : s.ins_length ≤ 32
      · rw [if_neg h16, if_pos h32, show max 1 ((s.ins_length + 15) / 16) = 2 by omega]
        rfl
      · by_cases h48 : s.ins_length ≤ 48
        · rw [if_neg h16, if_neg h32, if_pos h48,
            show max 1 ((s.ins_length + 15) / 16) = 3 by omega]
          rfl
        · rw [if_neg h16, if_neg h32, if_neg h48,
            show max 1 ((s.ins_length + 15) / 16) = 4 by omega]
          rfl
  · intro h
    unfold sz_hash_state_fold_serial
    rw [if_pos h]

/-- Witness for C4: the freshly initialized state (`ins_length = 0`) takes the
minimal path with one update; the same state with `ins_length := 64` takes the
wide path. -/
theorem fold_serial_characterization_witness :
    (sz_hash_state_fold_serial (sz_hash_state_init_serial 0) =
      _sz_hash_minimal_finalize_serial
        ((List.range (max 1 (((sz_hash_state_init_serial 0).ins_length + 15) / 16))).foldl
          (fun m j =>
            _sz_hash_minimal_update_serial m (insVec (sz_hash_state_init_serial 0).ins j))
          { aes := (sz_hash_state_init_serial 0).aes0,
            sum := (sz_hash_state_init_serial 0).sum0,
            key := (sz_hash_state_init_serial 0).key })
        (sz_hash_state_init_serial 0).ins_length) ∧
    (sz_hash_state_fold_serial { sz_hash_state_init_serial 0 with ins_length := 64 } =
      _sz_hash_state_finalize_serial { sz_hash_state_init_serial 0 with ins_length := 64 }) :=
  ⟨(fold_serial_characterization (sz_hash_state_init_serial 0)).1 (by decide),
    (fold_serial_characterization { sz_hash_state_init_serial 0 with ins_length := 64 }).2
      (by decide)⟩

/-! ## C1: streaming vs. one-shot divergence

The spec demands `digest ∘ stream = hash` for every partition and length, and the
header of `hash.h` itself states "The algorithm must provide the same output on
all platforms in both single-shot and incremental modes".  The serial code
breaks this at length 64: `sz_hash_serial` routes lengths `≤ 64` through the
minimal single-lane path, while a streamed state that has absorbed 64 bytes has
`ins_length = 64` and `sz_hash_state_fold_serial` finalizes it through the wide
four-lane path; moreover for `ins_length > 64` with `ins_length % 64 ≠ 0` the
fold never absorbs the pending tail bytes left in `ins`.  The next theorem pins
both digests on the 64-zero-byte input and shows they differ. -/

set_option maxRecDepth 16000 in
/-- **C1.** Counter-evidence for streaming equivalence: streaming the 64-byte
zero string as a single chunk with seed 0 and folding yields a different 64-bit
value than the one-shot `sz_hash_serial` on the same input — the claim fails at
length 64 (one of the lengths it explicitly requires). -/
theorem stream_fold_differs_from_hash_at_64 :
    sz_hash_state_fold_serial
        (sz_hash_state_stream_serial (sz_hash_state_init_serial 0)
          (List.replicate 64 0)) = 0xc35b18e505a11e5c ∧
    sz_hash_serial (List.replicate 64 0) 0 = 0xf4734d788a645d8c ∧
    sz_hash_state_fold_serial
        (sz_hash_state_stream_serial (sz_hash_state_init_serial 0)
          (List.replicate 64 0)) ≠
      sz_hash_serial (List.replicate 64 0) 0 := by
  have h1 : sz_hash_state_fold_serial
      (sz_hash_state_stream_serial (sz_hash_state_init_serial 0)
        (List.replicate 64 0)) = 0xc35b18e505a11e5c := by decide
  have h2 : sz_hash_serial (List.replicate 64 0) 0 = 0xf4734d788a645d8c := by decide
  refine ⟨h1, h2, ?_⟩
  rw [h1, h2]
  decide
